import Mathlib

/-!
Verification development for the recurrence-date engine of this repository
(the schedule schemas: `IntervalSchedule`, `CronSchedule`, `RRuleSchedule`
and their common `get_dates` contract).

The engine implementation file is not part of the provided sources (only its
test suite is), so the definitions below are modelled from the specification:
instants are integers counting minutes since 1970-01-01T00:00 UTC (every
instant in the model is timezone-aware by construction: it always denotes an
absolute point in time, rendered in a zone on demand), timezones are standard
offsets plus the United States daylight-saving rule, and each engine is a pure
fuel-bounded generator post-processed by the shared facade (start/end
windowing, de-duplication, iteration cap, sorting).
-/

set_option maxRecDepth 100000

/-- Modelled from the spec: leap-year test for the proleptic Gregorian
calendar used by the engine's timezone and calendar arithmetic. -/
def isLeap (y : Int) : Bool :=
  y % 4 == 0 && (y % 100 != 0 || y % 400 == 0)

/-- Modelled from the spec: number of days from 1970-01-01 to the civil date
`y-m-d` (Gregorian calendar, negative for earlier dates). -/
def daysFromCivil (y m d : Int) : Int :=
  let yy : Int := if m ≤ 2 then y - 1 else y
  let era : Int := yy.ediv 400
  let yoe : Int := yy - era * 400
  let mp : Int := (m + 9).emod 12
  let doy : Int := (153 * mp + 2).ediv 5 + d - 1
  let doe : Int := yoe * 365 + yoe.ediv 4 - yoe.ediv 100 + doy
  era * 146097 + doe - 719468

/-- Modelled from the spec: civil date `(y, m, d)` of the day `z` days after
1970-01-01 (inverse of `daysFromCivil`). -/
def civilFromDays (z : Int) : Int × Int × Int :=
  let z2 : Int := z + 719468
  let era : Int := z2.ediv 146097
  let doe : Int := z2 - era * 146097
  let yoe : Int := (doe - doe.ediv 1460 + doe.ediv 36524 - doe.ediv 146096).ediv 365
  let y : Int := yoe + era * 400
  let doy : Int := doe - (365 * yoe + yoe.ediv 4 - yoe.ediv 100)
  let mp : Int := (5 * doy + 2).ediv 153
  let d : Int := doy - (153 * mp + 2).ediv 5 + 1
  let m : Int := mp + (if mp < 10 then 3 else -9)
  (if m ≤ 2 then y + 1 else y, m, d)

/-- Minutes since the epoch of the civil instant `y-m-d h:mi` (interpreted in
whatever clock the caller is working in: UTC for absolute instants, the local
wall clock for civil times). -/
def mins (y m d h mi : Int) : Int :=
  daysFromCivil y m d * 1440 + h * 60 + mi

/-- Weekday of a day number, with Monday = 0 through Sunday = 6 (the Python
`datetime.weekday` convention; 1970-01-01 was a Thursday, weekday 3). -/
def weekdayOfDay (day : Int) : Int :=
  (day + 3).emod 7

/-- Year of the civil instant given in minutes since the epoch. -/
def yearOfMinutes (c : Int) : Int :=
  (civilFromDays (c.ediv 1440)).1

/-- Hour-of-day (0..23) of a civil instant in minutes. -/
def hourOfMinutes (c : Int) : Int :=
  (c.emod 1440).ediv 60

/-- Modelled from the spec: day number of the second Sunday of March of year
`y` (the United States daylight-saving start day). -/
def secondSundayMarch (y : Int) : Int :=
  let d0 : Int := daysFromCivil y 3 1
  d0 + (6 - weekdayOfDay d0).emod 7 + 7

/-- Modelled from the spec: day number of the first Sunday of November of
year `y` (the United States daylight-saving end day). -/
def firstSundayNov (y : Int) : Int :=
  let d0 : Int := daysFromCivil y 11 1
  d0 + (6 - weekdayOfDay d0).emod 7

/-- Local civil minute at which daylight saving starts in year `y`
(02:00 local standard time on the second Sunday of March). -/
def springCivilMin (y : Int) : Int :=
  secondSundayMarch y * 1440 + 120

/-- Local civil minute at which daylight saving ends in year `y`
(02:00 local daylight time on the first Sunday of November). -/
def fallCivilMin (y : Int) : Int :=
  firstSundayNov y * 1440 + 120

/-- Modelled from the spec: a timezone from the read-only timezone database,
reduced to the data the exercised zones need: a standard offset east of UTC
in minutes and whether the zone observes the United States daylight-saving
rule. -/
structure Zone where
  std : Int
  usDst : Bool
deriving DecidableEq, Repr

/-- Offset (minutes east of UTC) of zone `z` at the absolute instant `t`. -/
def zoneOffsetAt (z : Zone) (t : Int) : Int :=
  if z.usDst then
    let y := yearOfMinutes (t + z.std)
    let spU := springCivilMin y - z.std
    let faU := fallCivilMin y - (z.std + 60)
    if spU ≤ t ∧ t < faU then z.std + 60 else z.std
  else z.std

/-- Local civil time (minutes) in zone `z` of the absolute instant `t`. -/
def localOfUTC (z : Zone) (t : Int) : Int :=
  t + zoneOffsetAt z t

/-- Modelled from the spec: absolute instant of the local civil time `c` in
zone `z`.  An ambiguous civil time (repeated during the fall-back transition)
resolves to its earlier occurrence; a nonexistent civil time (skipped during
the spring-forward transition) resolves to the transition instant itself. -/
def utcOfCivil (z : Zone) (c : Int) : Int :=
  if z.usDst then
    let y := yearOfMinutes c
    let sp := springCivilMin y
    let fa := fallCivilMin y
    if sp ≤ c ∧ c < sp + 60 then sp - z.std
    else if sp ≤ c ∧ c < fa then c - (z.std + 60)
    else c - z.std
  else c - z.std

/-- Modelled from the spec: the resolvable IANA zone names the engine's
validators accept in this development. -/
def knownTimezones : List String :=
  ["UTC", "America/New_York", "America/Chicago", "America/Los_Angeles",
   "America/Montreal"]

/-- A timezone name is valid when it resolves in the timezone database. -/
def validTimezone (name : String) : Bool :=
  knownTimezones.contains name

/-- Zone record for a (valid) timezone name; unknown names fall back to UTC. -/
def zoneOf (name : String) : Zone :=
  if name = "America/New_York" then ⟨-300, true⟩
  else if name = "America/Chicago" then ⟨-360, true⟩
  else if name = "America/Los_Angeles" then ⟨-480, true⟩
  else if name = "America/Montreal" then ⟨-300, true⟩
  else ⟨0, false⟩

/-- Modelled from the spec: the tzinfo attached to a datetime value as it
arrives at a constructor: a named IANA zone, a bare UTC offset (as parsed
from an ISO string such as `...-04:00`), or absent (a naive datetime). -/
inductive TzTag
  | named (name : String)
  | offset (minutes : Int)
  | naive
deriving DecidableEq, Repr

/-- Modelled from the spec: a datetime value as handed to the constructors:
the absolute instant it denotes (naive datetimes are assumed to be UTC) plus
the tzinfo tag it carries. -/
structure ZonedDT where
  utc : Int
  tag : TzTag
deriving DecidableEq, Repr

deriving instance DecidableEq for Except

/-- Modelled from the spec: global cap on the number of occurrences any
single `get_dates` call may return (`MAX_ITERATIONS`). -/
def MAX_ITERATIONS : Nat := 1000

/-- Modelled from the spec: hard cap on the length of a serialized RRule
string (`MAX_RRULE_LENGTH`). -/
def MAX_RRULE_LENGTH : Nat := 6500

/-- Modelled from the spec: `IntervalSchedule` — a strictly positive period
(in minutes), a timezone-aware anchor instant, and a resolved timezone
name. -/
structure IntervalSchedule where
  interval : Int
  anchor_date : ZonedDT
  timezone : String
deriving DecidableEq, Repr

/-- Modelled from the spec: the validated constructor of `IntervalSchedule`.
The interval must be positive; an explicit timezone must be a resolvable
IANA zone name; an absent timezone is inferred from the anchor's zone, with
bare UTC offsets (and naive anchors) collapsing to `"UTC"`; an absent anchor
defaults to the current instant in the resolved timezone. -/
def IntervalSchedule.create (interval : Int) (anchor : Option ZonedDT)
    (tz : Option String) (now : Int) : Except String IntervalSchedule :=
  if interval ≤ 0 then .error "interval must be positive"
  else
    match tz with
    | some name =>
        if validTimezone name then
          .ok { interval := interval,
                anchor_date := anchor.getD ⟨now, .named name⟩,
                timezone := name }
        else .error "Invalid timezone"
    | none =>
        let a := anchor.getD ⟨now, .named "UTC"⟩
        let inferred :=
          match a.tag with
          | .named n => n
          | .offset _ => "UTC"
          | .naive => "UTC"
        if validTimezone inferred then
          .ok { interval := interval, anchor_date := a, timezone := inferred }
        else .error "Invalid timezone"

/-- Modelled from the spec: `CronSchedule` — the five parsed cron field sets
(an empty list stands for `*`, matching every value), the schedule timezone
and the `day_or` flag combining day-of-month and day-of-week. -/
structure CronSchedule where
  minutes : List Int
  hours : List Int
  doms : List Int
  months : List Int
  dows : List Int
  timezone : String
  day_or : Bool
deriving DecidableEq, Repr

/-- One cron field matches a value when the field is `*` or lists it. -/
def cronFieldOk (field : List Int) (v : Int) : Bool :=
  field.isEmpty || field.contains v

/-- Modelled from the spec: whether the local civil minute `c` matches the
cron expression: minute, hour and month fields all match, and the
day-of-month/day-of-week pair combines with OR (`day_or`) or AND when both
are restricted, with the usual semantics otherwise. -/
def cronMatch (cs : CronSchedule) (c : Int) : Bool :=
  let day := c.ediv 1440
  let tod := c.emod 1440
  let ymd := civilFromDays day
  let dowCron := (weekdayOfDay day + 1).emod 7
  cronFieldOk cs.minutes (tod.emod 60) && cronFieldOk cs.hours (tod.ediv 60) &&
  cronFieldOk cs.months ymd.2.1 &&
  (if !cs.doms.isEmpty && !cs.dows.isEmpty then
     (if cs.day_or then cs.doms.contains ymd.2.2 || cs.dows.contains dowCron
      else cs.doms.contains ymd.2.2 && cs.dows.contains dowCron)
   else cronFieldOk cs.doms ymd.2.2 && cronFieldOk cs.dows dowCron)

/-- Search fuel for one cron advance (enough local minutes to cover any
realizable next occurrence of the cron expressions this engine accepts). -/
def cronSearchFuel : Nat := 1440 * 1500

/-- Least matching local civil minute at or after `c`, scanning minute by
minute with the given fuel. -/
def cronSearch (cs : CronSchedule) : Nat → Int → Option Int
  | 0, _ => none
  | fuel + 1, c => if cronMatch cs c then some c else cronSearch cs fuel (c + 1)

/-- Modelled from the spec: recurrence frequencies of the RRule subset the
exercised schedules use. -/
inductive RFreq
  | minutely
  | hourly
  | daily
  | weekly
deriving DecidableEq, Repr

/-- Modelled from the spec: the parsed in-memory recurrence of an
`RRuleSchedule` (the RuleSet reduced to the single-rule content the
exercised schedules use): frequency, interval, optional COUNT, BYDAY weekday
list (Monday = 0) and the DTSTART as a local civil minute in the schedule
timezone. -/
structure RRuleData where
  freq : RFreq
  interval : Int
  count : Option Nat
  byday : List Int
  dtstart : Int
deriving DecidableEq, Repr

/-- Whether day number `day` is an occurrence day of the day-granularity
rule `r` (`daily` honours INTERVAL and the BYDAY filter; `weekly` without
BYDAY fires on DTSTART's weekday every INTERVAL weeks, and with BYDAY on the
listed weekdays of every INTERVAL-th week counted from DTSTART's week). -/
def rruleDayOk (r : RRuleData) (day : Int) : Bool :=
  let d0 := r.dtstart.ediv 1440
  match r.freq with
  | .daily =>
      (day - d0).emod r.interval == 0 &&
      (r.byday.isEmpty || r.byday.contains (weekdayOfDay day))
  | .weekly =>
      if r.byday.isEmpty then (day - d0).emod (7 * r.interval) == 0
      else
        let weekStart := d0 - weekdayOfDay d0
        r.byday.contains (weekdayOfDay day) &&
        ((day - weekStart).ediv 7).emod r.interval == 0
  | _ => false

/-- Search fuel for one day-granularity rrule advance. -/
def rruleSearchFuel : Nat := 10000

/-- Least occurrence day of rule `r` at or after `day`. -/
def rruleSearchDay (r : RRuleData) : Nat → Int → Option Int
  | 0, _ => none
  | fuel + 1, day =>
      if rruleDayOk r day then some day else rruleSearchDay r fuel (day + 1)

/-- Modelled from the spec: the fixed default DTSTART substituted when an
RRule carries none, `2020-01-01T00:00` (a fixed instant, as the idempotence
contract and the unanchored-schedule regression tests require), expressed as
a local civil minute. -/
def DEFAULT_ANCHOR_CIVIL : Int := mins 2020 1 1 0 0

/-- Split a character list on a separator character (text processing is done
on character lists so that every parsing step is plain structural
recursion). -/
def splitOnChar (sep : Char) : List Char → List (List Char)
  | [] => [[]]
  | c :: rest =>
      let r := splitOnChar sep rest
      if c = sep then [] :: r
      else
        match r with
        | [] => [[c]]
        | g :: gs => (c :: g) :: gs

/-- Decimal digit value of a character, if it is a digit. -/
def digitVal (c : Char) : Option Nat :=
  if '0' ≤ c ∧ c ≤ '9' then some (c.toNat - 48) else none

/-- Decimal number denoted by a nonempty digit list. -/
def natOfChars (l : List Char) : Option Nat :=
  match l with
  | [] => none
  | _ => l.foldlM (fun acc c => (digitVal c).map (fun v => acc * 10 + v)) 0

/-- Remainder of a character list after a literal keyword, when the keyword
is in front. -/
def dropKeyword : List Char → List Char → Option (List Char)
  | [], l => some l
  | _ :: _, [] => none
  | p :: ps, c :: cs => if c = p then dropKeyword ps cs else none

/-- Parse a basic-format RRule timestamp `YYYYMMDDTHHMMSS` with optional
trailing `Z`; the result is the civil minute plus whether the `Z` (UTC)
marker was present.  Seconds are accepted and truncated (the engine works
at minute precision). -/
def parseTimestampChars : List Char → Option (Int × Bool)
  | y1 :: y2 :: y3 :: y4 :: mo1 :: mo2 :: d1 :: d2 :: t :: h1 :: h2 ::
      mi1 :: mi2 :: s1 :: s2 :: rest =>
    if t = 'T' then
      match natOfChars [y1, y2, y3, y4], natOfChars [mo1, mo2],
          natOfChars [d1, d2], natOfChars [h1, h2], natOfChars [mi1, mi2],
          natOfChars [s1, s2], rest with
      | some y, some mo, some d, some h, some mi, some _, [] =>
          some (mins y mo d h mi, false)
      | some y, some mo, some d, some h, some mi, some _, ['Z'] =>
          some (mins y mo d h mi, true)
      | _, _, _, _, _, _, _ => none
    else none
  | _ => none

/-- BYDAY weekday code, as a Monday = 0 number. -/
def bydayNumOfChars (code : List Char) : Option Int :=
  if code = "MO".data then some 0
  else if code = "TU".data then some 1
  else if code = "WE".data then some 2
  else if code = "TH".data then some 3
  else if code = "FR".data then some 4
  else if code = "SA".data then some 5
  else if code = "SU".data then some 6
  else none

/-- Frequency keyword of the RRule grammar (the subset this engine
enumerates). -/
def rfreqOfChars (v : List Char) : Option RFreq :=
  if v = "MINUTELY".data then some .minutely
  else if v = "HOURLY".data then some .hourly
  else if v = "DAILY".data then some .daily
  else if v = "WEEKLY".data then some .weekly
  else none

/-- Parse a comma-separated BYDAY list. -/
def parseByday (v : List Char) : Option (List Int) :=
  (splitOnChar ',' v).mapM bydayNumOfChars

/-- Accumulator for the RRULE parameter clauses. -/
structure RRuleParams where
  freq : Option RFreq := none
  interval : Int := 1
  count : Option Nat := none
  byday : List Int := []

/-- Fold one `KEY=VALUE` clause into the parameter accumulator; clauses
outside the supported subset make the whole rule unparsable. -/
def applyParam (p : RRuleParams) (clause : List Char) : Option RRuleParams :=
  match splitOnChar '=' clause with
  | [k, v] =>
      if k = "FREQ".data then
        (rfreqOfChars v).map (fun f => { p with freq := some f })
      else if k = "INTERVAL".data then
        (natOfChars v).bind (fun n =>
          if n = 0 then none else some { p with interval := (n : Int) })
      else if k = "COUNT".data then
        (natOfChars v).map (fun n => { p with count := some n })
      else if k = "BYDAY".data then
        (parseByday v).map (fun l => { p with byday := l })
      else none
  | _ => none

/-- Parse the `;`-separated parameter text of one RRULE line. -/
def parseParams (l : List Char) : Option RRuleParams :=
  (splitOnChar ';' l).foldlM applyParam {}

/-- Classification of one line of RRule text. -/
inductive RRuleLine
  | dtstartLine (c : Int) (isUTC : Bool)
  | ruleLine (p : RRuleParams)

/-- Parse one (upper-cased) line of RRule text: a `DTSTART:` line, an
`RRULE:`-prefixed parameter list, or a bare parameter list. -/
def parseLineChars (line : List Char) : Option RRuleLine :=
  match dropKeyword "DTSTART:".data line with
  | some rest => (parseTimestampChars rest).map (fun t => .dtstartLine t.1 t.2)
  | none =>
      match dropKeyword "RRULE:".data line with
      | some rest => (parseParams rest).map .ruleLine
      | none => (parseParams line).map .ruleLine

/-- Modelled from the spec: parse raw RRule text into the in-memory
recurrence, localized to zone `z`: keyword matching is case-insensitive, a
missing DTSTART is substituted by the fixed default anchor, a naive DTSTART
is read as local civil time in `z` and a `Z`-marked one as UTC.  The parser
covers the single-rule subset the exercised schedules use; text outside it
(including malformed text) yields `none`. -/
def parseRRuleText (z : Zone) (s : String) : Option RRuleData :=
  let lines := (splitOnChar '\n' (s.data.map Char.toUpper)).filter
    (fun l => l ≠ [])
  match lines.mapM parseLineChars with
  | none => none
  | some parsed =>
      let dts := parsed.filterMap (fun l => match l with
        | .dtstartLine c isUTC => some (c, isUTC)
        | _ => none)
      let rules := parsed.filterMap (fun l => match l with
        | .ruleLine p => some p
        | _ => none)
      match dts, rules with
      | _ :: _ :: _, _ => none
      | _, [] => none
      | _, _ :: _ :: _ => none
      | dtsOne, [p] =>
          match p.freq with
          | none => none
          | some f =>
              let dtstart :=
                match dtsOne with
                | [(c, isUTC)] => if isUTC then localOfUTC z c else c
                | _ => DEFAULT_ANCHOR_CIVIL
              some { freq := f, interval := p.interval, count := p.count,
                     byday := p.byday, dtstart := dtstart }

/-- Modelled from the spec: `RRuleSchedule` — the serialized RRule text and
the schedule timezone. -/
structure RRuleSchedule where
  rrule : String
  timezone : String
deriving DecidableEq, Repr

/-- Modelled from the spec: the validated constructor of `RRuleSchedule`:
text longer than `MAX_RRULE_LENGTH` is rejected, the timezone must resolve,
and the text must parse; all failures are synchronous validation errors. -/
def RRuleSchedule.create (s : String) (tz : Option String) :
    Except String RRuleSchedule :=
  if MAX_RRULE_LENGTH < s.length then
    .error "Invalid RRule string: exceeds maximum length"
  else
    let name := tz.getD "UTC"
    if !validTimezone name then .error "Invalid timezone"
    else
      match parseRRuleText (zoneOf name) s with
      | none => .error "Invalid RRule string"
      | some _ => .ok ⟨s, name⟩

/-- Modelled from the spec: one member recurrence rule of a native RRuleSet
object handed to `from_rrule`: its content plus its own DTSTART, given as
the absolute instant it denotes and the zone name of its tzinfo (`none` for
a naive DTSTART). -/
structure RRuleObj where
  freq : RFreq
  interval : Int
  count : Option Nat
  byday : List Int
  dtstart : Option (Int × Option String)
deriving DecidableEq, Repr

/-- Modelled from the spec: a native RRuleSet object: RRULE and EXRULE
members plus literal RDATE/EXDATE instants. -/
structure RRuleSetObj where
  rrules : List RRuleObj
  exrules : List RRuleObj
  rdates : List Int
  exdates : List Int
deriving DecidableEq, Repr

/-- All members of a list are equal (the list, read as a set, has at most
one element). -/
def allEqBy {α : Type} [BEq α] : List α → Bool
  | [] => true
  | x :: xs => xs.all (· == x)

/-- DTSTART values carried by the RRULE members of a ruleset. -/
def dtstartsOf (rs : RRuleSetObj) : List (Int × Option String) :=
  rs.rrules.filterMap (·.dtstart)

/-- DTSTART timezone names carried by the RRULE members of a ruleset. -/
def dtstartTzsOf (rs : RRuleSetObj) : List String :=
  (dtstartsOf rs).filterMap (·.2)

/-- DTSTART instants carried by the RRULE members of a ruleset. -/
def dtstartInstantsOf (rs : RRuleSetObj) : List Int :=
  (dtstartsOf rs).map (·.1)

/-- Left-pad the decimal form of `n` with zeros to `width` digits. -/
def padNat (width : Nat) (n : Nat) : String :=
  let s := toString n
  String.mk (List.replicate (width - s.length) '0') ++ s

/-- Serialize a civil minute in RRule basic timestamp format. -/
def fmtTimestamp (c : Int) : String :=
  let ymd := civilFromDays (c.ediv 1440)
  padNat 4 ymd.1.toNat ++ padNat 2 ymd.2.1.toNat ++ padNat 2 ymd.2.2.toNat ++
    "T" ++ padNat 2 (hourOfMinutes c).toNat ++
    padNat 2 ((c.emod 1440).emod 60).toNat ++ "00"

/-- Keyword of a frequency. -/
def freqKeyword : RFreq → String
  | .minutely => "MINUTELY"
  | .hourly => "HOURLY"
  | .daily => "DAILY"
  | .weekly => "WEEKLY"

/-- BYDAY code of a Monday = 0 weekday number. -/
def bydayCodeOf (n : Int) : String :=
  if n = 0 then "MO" else if n = 1 then "TU" else if n = 2 then "WE"
  else if n = 3 then "TH" else if n = 4 then "FR" else if n = 5 then "SA"
  else "SU"

/-- Serialize the parameter text of one rule member. -/
def serializeRuleBody (r : RRuleObj) : String :=
  "FREQ=" ++ freqKeyword r.freq ++
  (if r.interval = 1 then "" else ";INTERVAL=" ++ toString r.interval.toNat) ++
  (match r.count with | some n => ";COUNT=" ++ toString n | none => "") ++
  (match r.byday with
   | [] => ""
   | l => ";BYDAY=" ++ String.intercalate "," (l.map bydayCodeOf))

/-- Modelled from the spec: serialize a ruleset to canonical text: one
DTSTART line followed by one line per RRULE, EXRULE, RDATE and EXDATE
component, in that grouping order, with RDATE/EXDATE groups comma-joined;
every component is localized to zone `z`. -/
def serializeRuleSet (z : Zone) (rs : RRuleSetObj) : String :=
  let dtLine :=
    match (dtstartsOf rs).head? with
    | some (t, _) => ["DTSTART:" ++ fmtTimestamp (localOfUTC z t)]
    | none => []
  let ruleLines := rs.rrules.map (fun r => "RRULE:" ++ serializeRuleBody r)
  let exruleLines := rs.exrules.map (fun r => "EXRULE:" ++ serializeRuleBody r)
  let rdateLines :=
    match rs.rdates with
    | [] => []
    | l => ["RDATE:" ++ String.intercalate ","
        (l.map (fun t => fmtTimestamp (localOfUTC z t)))]
  let exdateLines :=
    match rs.exdates with
    | [] => []
    | l => ["EXDATE:" ++ String.intercalate ","
        (l.map (fun t => fmtTimestamp (localOfUTC z t)))]
  String.intercalate "\n" (dtLine ++ ruleLines ++ exruleLines ++ rdateLines ++ exdateLines)

/-- Modelled from the spec: conversion of a native RRuleSet object into an
`RRuleSchedule`.  The RRULE members' DTSTARTs must agree: rules in more than
one distinct timezone are rejected with a "too many dtstart timezones"
validation error, and rules at more than one distinct instant with a "too
many dtstarts" error — synchronously, at construction. -/
def RRuleSchedule.from_rruleset (rs : RRuleSetObj) : Except String RRuleSchedule :=
  if !allEqBy (dtstartTzsOf rs) then
    .error "rruleset has too many dtstart timezones"
  else if !allEqBy (dtstartInstantsOf rs) then
    .error "rruleset has too many dtstarts"
  else
    let tzName := ((dtstartTzsOf rs).head?).getD "UTC"
    .ok ⟨serializeRuleSet (zoneOf tzName) rs, tzName⟩

/-- Modelled from the spec: the closed sum of the three schedule kinds,
matched exhaustively by the facade. -/
inductive Schedule
  | interval (s : IntervalSchedule)
  | cron (c : CronSchedule)
  | rrule (r : RRuleSchedule)
deriving DecidableEq, Repr

/-- Interval-engine generator step: emit the cursor (converted out of local
civil time in `z` when `civilMode` is on, taken as an absolute instant
otherwise) and advance by one interval. -/
def intervalStep (z : Zone) (i : Int) (civilMode : Bool) (cursor : Int) :
    Option (Int × Int) :=
  some ((if civilMode then utcOfCivil z cursor else cursor), cursor + i)

/-- Cron-engine generator step: find the next matching local civil minute at
or after the cursor, emit its absolute instant, and restart the search just
past it. -/
def cronStep (cs : CronSchedule) (z : Zone) (cursor : Int) :
    Option (Int × Int) :=
  match cronSearch cs cronSearchFuel cursor with
  | none => none
  | some c => some (utcOfCivil z c, c + 1)

/-- RRule-engine generator step over the state (cursor, occurrences made):
exhausted once COUNT occurrences have been produced; minute/hour frequencies
step the civil cursor directly, day frequencies search for the next
occurrence day and attach DTSTART's time of day. -/
def rruleStep (r : RRuleData) (z : Zone) (st : Int × Nat) :
    Option (Int × (Int × Nat)) :=
  let cursor := st.1
  let made := st.2
  if (match r.count with | some cnt => decide (cnt ≤ made) | none => false) then none
  else
    match r.freq with
    | .minutely => some (utcOfCivil z cursor, (cursor + r.interval, made + 1))
    | .hourly => some (utcOfCivil z cursor, (cursor + 60 * r.interval, made + 1))
    | .daily | .weekly =>
        match rruleSearchDay r rruleSearchFuel cursor with
        | none => none
        | some day =>
            some (utcOfCivil z (day * 1440 + r.dtstart.emod 1440),
              (day + 1, made + 1))

/-- Initial rrule generator state: the DTSTART civil minute (or its day, for
day-granularity frequencies) with no occurrence made yet. -/
def rruleInit (r : RRuleData) : Int × Nat :=
  match r.freq with
  | .minutely | .hourly => (r.dtstart, 0)
  | .daily | .weekly => (r.dtstart.ediv 1440, 0)

/-- Modelled from the spec: the shared facade loop post-processing a raw
engine generator: candidates before `start` are skipped, the loop stops once
a candidate passes `endOpt`, once `n` distinct dates have been collected, or
once the `MAX_ITERATIONS` fuel is exhausted; duplicates (a DST fold can make
an engine repeat an instant) are dropped. -/
def driveAux {σ : Type} (step : σ → Option (Int × σ)) (start : Int)
    (endOpt : Option Int) (n : Nat) : Nat → σ → List Int → List Int
  | 0, _, acc => acc
  | fuel + 1, st, acc =>
    if n ≤ acc.length then acc
    else
      match step st with
      | none => acc
      | some (d, st2) =>
          if d < start then driveAux step start endOpt n fuel st2 acc
          else if (match endOpt with
                   | some e => decide (e < d)
                   | none => false) then acc
          else if acc.contains d then driveAux step start endOpt n fuel st2 acc
          else driveAux step start endOpt n fuel st2 (acc ++ [d])

/-- Raw (unsorted) dates of a schedule for a resolved request: dispatch to
the engine matching the schedule kind and run the facade loop.  The interval
engine works in local wall-clock civil time for intervals of a day or
coarser (preserving local time of day across DST boundaries) and in absolute
elapsed time for sub-day intervals; its first candidate is the phase-aligned
point at or after `start` in the respective time scale.  An unparsable
stored RRule yields no dates (construction validation prevents it). -/
def rawDates (sched : Schedule) (nn : Nat) (s : Int) (endOpt : Option Int) :
    List Int :=
  match sched with
  | .interval isched =>
      let z := zoneOf isched.timezone
      let i := isched.interval
      if 1440 ≤ i then
        let aCiv := localOfUTC z isched.anchor_date.utc
        let sCiv := localOfUTC z s
        driveAux (intervalStep z i true) s endOpt nn MAX_ITERATIONS
          (sCiv + (aCiv - sCiv).emod i) []
      else
        driveAux (intervalStep z i false) s endOpt nn MAX_ITERATIONS
          (s + (isched.anchor_date.utc - s).emod i) []
  | .cron cs =>
      let z := zoneOf cs.timezone
      driveAux (cronStep cs z) s endOpt nn MAX_ITERATIONS (localOfUTC z s) []
  | .rrule r =>
      let z := zoneOf r.timezone
      match parseRRuleText z r.rrule with
      | none => []
      | some rd => driveAux (rruleStep rd z) s endOpt nn MAX_ITERATIONS (rruleInit rd) []

/-- Modelled from the spec: the `get_dates` contract shared by all three
schedule kinds.  `start` defaults to the injected current instant `now`;
with `n` and `end` both omitted a single date is requested; with `n` omitted
but `end` given, up to `MAX_ITERATIONS` dates are requested; the raw engine
output is windowed to `[start, end]`, de-duplicated, capped and sorted
ascending.  The call is a pure function of its arguments: it reads no clock
beyond the explicit `now` parameter. -/
def Schedule.get_dates (sched : Schedule) (n : Option Nat) (start : Option Int)
    (endOpt : Option Int) (now : Int) : List Int :=
  let s := start.getD now
  let nn := n.getD (if endOpt.isSome then MAX_ITERATIONS else 1)
  List.insertionSort (· ≤ ·) (rawDates sched nn s endOpt)

/-- The facade loop never collects more than `n` dates. -/
theorem driveAux_length_le {σ : Type} (step : σ → Option (Int × σ)) (start : Int)
    (endOpt : Option Int) (n : Nat) :
    ∀ (fuel : Nat) (st : σ) (acc : List Int), acc.length ≤ n →
      (driveAux step start endOpt n fuel st acc).length ≤ n := by
  intro fuel
  induction fuel with
  | zero => intro st acc h; simpa [driveAux] using h
  | succ fuel ih =>
    intro st acc h
    rw [driveAux]
    split
    · exact h
    · rename_i hlen
      split
      · exact h
      · split
        · exact ih _ _ h
        · split
          · exact h
          · split
            · exact ih _ _ h
            · apply ih
              have hlt : acc.length < n := Nat.lt_of_not_le hlen
              simpa using hlt

/-- The facade loop adds at most one date per unit of fuel. -/
theorem driveAux_length_le_fuel {σ : Type} (step : σ → Option (Int × σ))
    (start : Int) (endOpt : Option Int) (n : Nat) :
    ∀ (fuel : Nat) (st : σ) (acc : List Int),
      (driveAux step start endOpt n fuel st acc).length ≤ acc.length + fuel := by
  intro fuel
  induction fuel with
  | zero => intro st acc; simp [driveAux]
  | succ fuel ih =>
    intro st acc
    rw [driveAux]
    split
    · omega
    · split
      · omega
      · split
        · calc (driveAux step start endOpt n fuel _ acc).length
              ≤ acc.length + fuel := ih _ _
            _ ≤ acc.length + (fuel + 1) := by omega
        · split
          · omega
          · split
            · calc (driveAux step start endOpt n fuel _ acc).length
                  ≤ acc.length + fuel := ih _ _
                _ ≤ acc.length + (fuel + 1) := by omega
            · calc (driveAux step start endOpt n fuel _ _).length
                  ≤ (acc ++ [_]).length + fuel := ih _ _
                _ ≤ acc.length + (fuel + 1) := by simp; omega

/-- Every date the facade loop returns was already accumulated or lies in
the requested window. -/
theorem driveAux_mem {σ : Type} (step : σ → Option (Int × σ)) (start : Int)
    (endOpt : Option Int) (n : Nat) :
    ∀ (fuel : Nat) (st : σ) (acc : List Int) (d : Int),
      d ∈ driveAux step start endOpt n fuel st acc →
      d ∈ acc ∨ (start ≤ d ∧ ∀ e, endOpt = some e → d ≤ e) := by
  intro fuel
  induction fuel with
  | zero => intro st acc d h; rw [driveAux] at h; exact Or.inl h
  | succ fuel ih =>
    intro st acc d h
    rw [driveAux] at h
    split at h
    · exact Or.inl h
    · split at h
      · exact Or.inl h
      · rename_i c st2 heq
        split at h
        · exact ih _ _ _ h
        · rename_i hlt
          split at h
          · exact Or.inl h
          · rename_i hend
            split at h
            · exact ih _ _ _ h
            · rcases ih _ _ _ h with hmem | hok
              · rcases List.mem_append.mp hmem with h1 | h1
                · exact Or.inl h1
                · have hd : d = c := by simpa using h1
                  subst hd
                  refine Or.inr ⟨le_of_not_lt hlt, ?_⟩
                  intro e he
                  subst he
                  simp only [decide_eq_true_eq] at hend
                  exact le_of_not_lt hend
              · exact Or.inr hok

/-- The facade loop preserves accumulated dates. -/
theorem driveAux_subset {σ : Type} (step : σ → Option (Int × σ)) (start : Int)
    (endOpt : Option Int) (n : Nat) :
    ∀ (fuel : Nat) (st : σ) (acc : List Int),
      acc ⊆ driveAux step start endOpt n fuel st acc := by
  intro fuel
  induction fuel with
  | zero => intro st acc; rw [driveAux]; exact fun _ h => h
  | succ fuel ih =>
    intro st acc
    rw [driveAux]
    split
    · exact fun _ h => h
    · split
      · exact fun _ h => h
      · split
        · exact ih _ _
        · split
          · exact fun _ h => h
          · split
            · exact ih _ _
            · intro x hx
              exact ih _ _ (List.mem_append.mpr (Or.inl hx))

/-- The facade loop's output is duplicate-free whenever the accumulator
is. -/
theorem driveAux_nodup {σ : Type} (step : σ → Option (Int × σ)) (start : Int)
    (endOpt : Option Int) (n : Nat) :
    ∀ (fuel : Nat) (st : σ) (acc : List Int), acc.Nodup →
      (driveAux step start endOpt n fuel st acc).Nodup := by
  intro fuel
  induction fuel with
  | zero => intro st acc h; rw [driveAux]; exact h
  | succ fuel ih =>
    intro st acc h
    rw [driveAux]
    split
    · exact h
    · split
      · exact h
      · split
        · exact ih _ _ h
        · split
          · exact h
          · split
            · exact ih _ _ h
            · rename_i c st2 heq hlt hend hcont
              apply ih
              rw [List.nodup_append]
              refine ⟨h, List.nodup_singleton c, ?_⟩
              intro x hx hxc
              have hc : c ∈ acc := by
                have : x = c := by simpa using hxc
                exact this ▸ hx
              exact hcont (by simpa using hc)

/-- Every date the facade loop returns satisfies a property `P` that the
engine's state invariant guarantees for each emission. -/
theorem driveAux_inv {σ : Type} (step : σ → Option (Int × σ)) (start : Int)
    (endOpt : Option Int) (n : Nat) (P : Int → Prop) (Inv : σ → Prop)
    (hstep : ∀ st d st2, Inv st → step st = some (d, st2) → P d ∧ Inv st2) :
    ∀ (fuel : Nat) (st : σ) (acc : List Int), Inv st → (∀ x ∈ acc, P x) →
      ∀ x ∈ driveAux step start endOpt n fuel st acc, P x := by
  intro fuel
  induction fuel with
  | zero => intro st acc _ hacc x hx; rw [driveAux] at hx; exact hacc x hx
  | succ fuel ih =>
    intro st acc hinv hacc x hx
    rw [driveAux] at hx
    split at hx
    · exact hacc x hx
    · split at hx
      · exact hacc x hx
      · rename_i c st2 heq
        have hcp := hstep st c st2 hinv heq
        split at hx
        · exact ih _ _ hcp.2 hacc x hx
        · split at hx
          · exact hacc x hx
          · split at hx
            · exact ih _ _ hcp.2 hacc x hx
            · refine ih _ _ hcp.2 ?_ x hx
              intro y hy
              rcases List.mem_append.mp hy with h1 | h1
              · exact hacc y h1
              · have : y = c := by simpa using h1
                exact this ▸ hcp.1

/-- Unfolding the first facade iteration when the engine's first emission
already lies at or after `start` and no end bound is given. -/
theorem driveAux_first {σ : Type} (step : σ → Option (Int × σ)) (start : Int)
    (n : Nat) (fuel : Nat) (st st2 : σ) (c : Int)
    (hstep : step st = some (c, st2)) (hs : start ≤ c) (hn : 0 < n) :
    driveAux step start none n (fuel + 1) st [] =
      driveAux step start none n fuel st2 [c] := by
  rw [driveAux]
  rw [if_neg (by simp; omega), hstep]
  simp [not_lt.mpr hs]

/-- The raw engine output never exceeds the requested count. -/
theorem rawDates_length_le (sched : Schedule) (nn : Nat) (s : Int)
    (endOpt : Option Int) : (rawDates sched nn s endOpt).length ≤ nn := by
  cases sched with
  | interval isched =>
    rw [rawDates]
    split
    · exact driveAux_length_le _ _ _ _ _ _ _ (by simp)
    · exact driveAux_length_le _ _ _ _ _ _ _ (by simp)
  | cron cs => exact driveAux_length_le _ _ _ _ _ _ _ (by simp)
  | rrule r =>
    rw [rawDates]
    split
    · simp
    · exact driveAux_length_le _ _ _ _ _ _ _ (by simp)

/-- The raw engine output never exceeds the iteration cap. -/
theorem rawDates_length_le_max (sched : Schedule) (nn : Nat) (s : Int)
    (endOpt : Option Int) :
    (rawDates sched nn s endOpt).length ≤ MAX_ITERATIONS := by
  cases sched with
  | interval isched =>
    rw [rawDates]
    split
    · simpa using driveAux_length_le_fuel _ _ _ _ MAX_ITERATIONS _ []
    · simpa using driveAux_length_le_fuel _ _ _ _ MAX_ITERATIONS _ []
  | cron cs => simpa using driveAux_length_le_fuel _ _ _ _ MAX_ITERATIONS _ []
  | rrule r =>
    rw [rawDates]
    split
    · simp
    · simpa using driveAux_length_le_fuel _ _ _ _ MAX_ITERATIONS _ []

/-- The raw engine output is duplicate-free. -/
theorem rawDates_nodup (sched : Schedule) (nn : Nat) (s : Int)
    (endOpt : Option Int) : (rawDates sched nn s endOpt).Nodup := by
  cases sched with
  | interval isched =>
    rw [rawDates]
    split
    · exact driveAux_nodup _ _ _ _ _ _ _ List.nodup_nil
    · exact driveAux_nodup _ _ _ _ _ _ _ List.nodup_nil
  | cron cs => exact driveAux_nodup _ _ _ _ _ _ _ List.nodup_nil
  | rrule r =>
    rw [rawDates]
    split
    · simp
    · exact driveAux_nodup _ _ _ _ _ _ _ List.nodup_nil

/-- Every raw engine date lies in the requested window. -/
theorem rawDates_mem (sched : Schedule) (nn : Nat) (s : Int)
    (endOpt : Option Int) {d : Int} (h : d ∈ rawDates sched nn s endOpt) :
    s ≤ d ∧ ∀ e, endOpt = some e → d ≤ e := by
  cases sched with
  | interval isched =>
    rw [rawDates] at h
    split at h
    · rcases driveAux_mem _ _ _ _ _ _ _ _ h with h1 | h1
      · cases h1
      · exact h1
    · rcases driveAux_mem _ _ _ _ _ _ _ _ h with h1 | h1
      · cases h1
      · exact h1
  | cron cs =>
    rcases driveAux_mem _ _ _ _ _ _ _ _ h with h1 | h1
    · cases h1
    · exact h1
  | rrule r =>
    rw [rawDates] at h
    split at h
    · cases h
    · rcases driveAux_mem _ _ _ _ _ _ _ _ h with h1 | h1
      · cases h1
      · exact h1

/-- A list sorted weakly and duplicate-free is sorted strictly. -/
theorem sorted_lt_of_sorted_le_nodup {l : List Int}
    (h1 : List.Sorted (· ≤ ·) l) (h2 : l.Nodup) : List.Sorted (· < ·) l := by
  induction l with
  | nil => simp
  | cons a t ih =>
    rw [List.sorted_cons] at h1 ⊢
    rw [List.nodup_cons] at h2
    refine ⟨fun b hb => lt_of_le_of_ne (h1.1 b hb) ?_, ih h1.2 h2.2⟩
    intro he
    exact h2.1 (he ▸ hb)

/-- The head of a weakly sorted list containing a lower bound of all its
members is that bound. -/
theorem head_eq_of_sorted_min {l : List Int} (hs : List.Sorted (· ≤ ·) l)
    {c : Int} (hc : c ∈ l) (hmin : ∀ x ∈ l, c ≤ x) : l.head? = some c := by
  cases l with
  | nil => cases hc
  | cons a t =>
    have h1 : c ≤ a := hmin a (List.mem_cons_self a t)
    have h2 : a ≤ c := by
      rcases List.mem_cons.mp hc with h | h
      · exact le_of_eq h.symm
      · exact (List.sorted_cons.mp hs).1 c h
    simp [le_antisymm h2 h1]

/-- The facade output is the sorted raw engine output. -/
theorem get_dates_eq_sort (sched : Schedule) (n : Option Nat)
    (start : Option Int) (endOpt : Option Int) (now : Int) :
    Schedule.get_dates sched n start endOpt now =
      List.insertionSort (· ≤ ·)
        (rawDates sched (n.getD (if endOpt.isSome then MAX_ITERATIONS else 1))
          (start.getD now) endOpt) := rfl

/-- The facade output is a permutation of the raw engine output. -/
theorem get_dates_perm_raw (sched : Schedule) (n : Option Nat)
    (start : Option Int) (endOpt : Option Int) (now : Int) :
    List.Perm (Schedule.get_dates sched n start endOpt now)
      (rawDates sched (n.getD (if endOpt.isSome then MAX_ITERATIONS else 1))
        (start.getD now) endOpt) := by
  rw [get_dates_eq_sort]
  exact List.perm_insertionSort _ _

/-- The facade output is weakly sorted. -/
theorem get_dates_sorted_le (sched : Schedule) (n : Option Nat)
    (start : Option Int) (endOpt : Option Int) (now : Int) :
    List.Sorted (· ≤ ·) (Schedule.get_dates sched n start endOpt now) := by
  rw [get_dates_eq_sort]
  exact List.sorted_insertionSort _ _

/-- A daily interval schedule anchored at 2021-01-01 UTC (the schedule the
interval tests build). -/
def dailyUTCSchedule : Schedule :=
  .interval ⟨1440, ⟨mins 2021 1 1 0 0, .named "UTC"⟩, "UTC"⟩

/-- The weekday schedule bounded by COUNT=8 (the schedule of the
`test_rrule_with_count` test, serialized). -/
def weekdayCountSchedule : Schedule :=
  .rrule ⟨"DTSTART:20200101T000000\nRRULE:FREQ=DAILY;COUNT=8;BYDAY=MO,TU,WE,TH,FR",
    "UTC"⟩

/-- C1 (amended): for every schedule, every `k ≥ 1` and every start `s`,
`get_dates(n=k, start=s)` returns at most `k` instants (a COUNT-bounded
rule can exhaust before producing `k`), and the returned sequence is
strictly ascending — hence pairwise distinct — with every element `≥ s`
(every element is an absolute instant, hence timezone-aware by
construction). -/
theorem C1_get_n_dates (sched : Schedule) (k : Nat) (s now : Int)
    (hk : 1 ≤ k) :
    (Schedule.get_dates sched (some k) (some s) none now).length ≤ k ∧
    List.Sorted (· < ·) (Schedule.get_dates sched (some k) (some s) none now) ∧
    ∀ d ∈ Schedule.get_dates sched (some k) (some s) none now, s ≤ d := by
  have hperm := get_dates_perm_raw sched (some k) (some s) none now
  simp only [Option.getD_some] at hperm
  refine ⟨?_, ?_, ?_⟩
  · rw [hperm.length_eq]
    exact rawDates_length_le sched k s none
  · exact sorted_lt_of_sorted_le_nodup
      (get_dates_sorted_le sched (some k) (some s) none now)
      (hperm.nodup_iff.mpr (rawDates_nodup sched k s none))
  · intro d hd
    exact (rawDates_mem sched k s none (hperm.mem_iff.mp hd)).1

/-- C1 witness: the bounded-sorted-window property instantiated at the
daily UTC interval schedule with `k = 5`. -/
theorem C1_get_n_dates_witness :
    1 ≤ 5 ∧
    ((Schedule.get_dates dailyUTCSchedule (some 5) (some (mins 2018 1 1 0 0))
        none 0).length ≤ 5 ∧
      List.Sorted (· < ·) (Schedule.get_dates dailyUTCSchedule (some 5)
        (some (mins 2018 1 1 0 0)) none 0) ∧
      ∀ d ∈ Schedule.get_dates dailyUTCSchedule (some 5)
        (some (mins 2018 1 1 0 0)) none 0, mins 2018 1 1 0 0 ≤ d) :=
  ⟨by decide, C1_get_n_dates dailyUTCSchedule 5 (mins 2018 1 1 0 0) 0 (by decide)⟩

/-- C1 counterexample: the COUNT=8 weekday schedule returns 8 dates, not
100, for `get_dates(n=100)` — so "returns exactly k instants" fails as
stated. -/
theorem C1_counterexample :
    (Schedule.get_dates weekdayCountSchedule (some 100)
        (some (mins 2020 1 1 0 0)) none 0).length = 8 ∧
    (Schedule.get_dates weekdayCountSchedule (some 100)
        (some (mins 2020 1 1 0 0)) none 0).length ≠ 100 := by
  refine ⟨by decide, ?_⟩
  intro h
  rw [show (Schedule.get_dates weekdayCountSchedule (some 100)
      (some (mins 2020 1 1 0 0)) none 0).length = 8 from by decide] at h
  cases h

/-- C2: for every schedule and window `[s, e]`, `get_dates(start=s, end=e)`
with `n` omitted returns only instants inside the closed window, and never
more than `MAX_ITERATIONS` of them. -/
theorem C2_window_and_cap (sched : Schedule) (s e now : Int) (hse : s ≤ e) :
    (∀ d ∈ Schedule.get_dates sched none (some s) (some e) now,
        s ≤ d ∧ d ≤ e) ∧
    (Schedule.get_dates sched none (some s) (some e) now).length ≤
      MAX_ITERATIONS := by
  have hperm := get_dates_perm_raw sched none (some s) (some e) now
  simp only [Option.getD_some, Option.getD_none, Option.isSome_some,
    if_pos] at hperm
  constructor
  · intro d hd
    have hm := rawDates_mem sched MAX_ITERATIONS s (some e)
      (hperm.mem_iff.mp hd)
    exact ⟨hm.1, hm.2 e rfl⟩
  · rw [hperm.length_eq]
    exact rawDates_length_le_max sched MAX_ITERATIONS s (some e)

/-- C2 witness: the window property instantiated at the daily UTC interval
schedule over the window 2022-01-01 to 2022-01-03. -/
theorem C2_window_and_cap_witness :
    mins 2022 1 1 0 0 ≤ mins 2022 1 3 0 0 ∧
    ((∀ d ∈ Schedule.get_dates dailyUTCSchedule none (some (mins 2022 1 1 0 0))
        (some (mins 2022 1 3 0 0)) 0,
        mins 2022 1 1 0 0 ≤ d ∧ d ≤ mins 2022 1 3 0 0) ∧
      (Schedule.get_dates dailyUTCSchedule none (some (mins 2022 1 1 0 0))
        (some (mins 2022 1 3 0 0)) 0).length ≤ MAX_ITERATIONS) :=
  ⟨by decide, C2_window_and_cap dailyUTCSchedule (mins 2022 1 1 0 0)
    (mins 2022 1 3 0 0) 0 (by decide)⟩

/-- The unanchored weekly-Friday schedule of the idempotence regression
test: no DTSTART in the rule text, timezone UTC. -/
def weeklyFridaySchedule : Schedule :=
  .rrule ⟨"FREQ=WEEKLY;BYDAY=FR", "UTC"⟩

/-- With an explicit start the facade never reads the injected clock: the
defaulting of `start` is the only consumer of `now`. -/
theorem get_dates_now_independent (sched : Schedule) (n : Option Nat)
    (s : Int) (endOpt : Option Int) (now : Int) :
    Schedule.get_dates sched n (some s) endOpt now =
      Schedule.get_dates sched n (some s) endOpt 0 := rfl

/-- C3: calling `get_dates` twice with identical explicit arguments on the
immutable unanchored weekly-Friday schedule yields identical output no
matter what the clock reads at each call (real time elapsing between calls
is modelled by distinct injected `now` values), and that output is exactly
the three Fridays 2023-06-09, 2023-06-16 and 2023-06-23 at midnight UTC for
`n = 3`, start 2023-06-08T00:00Z and end 21 days later. -/
theorem C3_unanchored_idempotent (now1 now2 : Int) :
    Schedule.get_dates weeklyFridaySchedule (some 3) (some (mins 2023 6 8 0 0))
        (some (mins 2023 6 29 0 0)) now1 =
      Schedule.get_dates weeklyFridaySchedule (some 3) (some (mins 2023 6 8 0 0))
        (some (mins 2023 6 29 0 0)) now2 ∧
    Schedule.get_dates weeklyFridaySchedule (some 3) (some (mins 2023 6 8 0 0))
        (some (mins 2023 6 29 0 0)) now1 =
      [mins 2023 6 9 0 0, mins 2023 6 16 0 0, mins 2023 6 23 0 0] := by
  constructor
  · exact (get_dates_now_independent weeklyFridaySchedule (some 3)
        (mins 2023 6 8 0 0) (some (mins 2023 6 29 0 0)) now1).trans
      (get_dates_now_independent weeklyFridaySchedule (some 3)
        (mins 2023 6 8 0 0) (some (mins 2023 6 29 0 0)) now2).symm
  · rw [get_dates_now_independent]
    decide

/-- The hourly New York cron schedule of the DST-forward test. -/
def cronHourlyNY : Schedule :=
  .cron ⟨[0], [], [], [], [], "America/New_York", true⟩

/-- C4: the hourly America/New_York cron schedule started at
2018-03-10T23:00 local (04:00 UTC) returns five instants whose local hours
skip the nonexistent hour 2 of the spring-forward night — `[23,0,1,3,4]` —
while their UTC hours keep a constant hourly cadence `[4,5,6,7,8]`. -/
theorem C4_cron_dst_forward :
    ((Schedule.get_dates cronHourlyNY (some 5) (some (mins 2018 3 11 4 0))
        none 0).map
      (fun d => hourOfMinutes (localOfUTC (zoneOf "America/New_York") d)) =
      [23, 0, 1, 3, 4]) ∧
    (Schedule.get_dates cronHourlyNY (some 5) (some (mins 2018 3 11 4 0))
        none 0).map hourOfMinutes = [4, 5, 6, 7, 8] := by
  constructor
  · decide
  · decide

/-- The daily interval schedule anchored at 2018-03-08T09:00
America/New_York (14:00 UTC) of the DST-forward test. -/
def intervalDailyNY : IntervalSchedule :=
  ⟨1440, ⟨mins 2018 3 8 14 0, .named "America/New_York"⟩, "America/New_York"⟩

/-- C5: constructing the daily schedule anchored at 2018-03-08T09:00
America/New_York (timezone inferred from the anchor) succeeds, and
`get_dates(n=5, start=anchor)` keeps the local hour at 9 across the
spring-forward boundary while the UTC hour shifts from 14 to 13. -/
theorem C5_interval_daily_dst_forward :
    IntervalSchedule.create 1440
        (some ⟨mins 2018 3 8 14 0, .named "America/New_York"⟩) none 0 =
      .ok intervalDailyNY ∧
    ((Schedule.get_dates (.interval intervalDailyNY) (some 5)
        (some (mins 2018 3 8 14 0)) none 0).map
      (fun d => hourOfMinutes (localOfUTC (zoneOf "America/New_York") d)) =
      [9, 9, 9, 9, 9]) ∧
    (Schedule.get_dates (.interval intervalDailyNY) (some 5)
        (some (mins 2018 3 8 14 0)) none 0).map hourOfMinutes =
      [14, 14, 14, 13, 13] := by
  refine ⟨by decide, ?_, ?_⟩
  · decide
  · decide

/-- A list with two distinct members is not all-equal. -/
theorem allEqBy_eq_false {α : Type} [BEq α] [LawfulBEq α] {l : List α}
    {a b : α} (ha : a ∈ l) (hb : b ∈ l) (hne : a ≠ b) :
    allEqBy l = false := by
  cases l with
  | nil => cases ha
  | cons x xs =>
    cases hh : allEqBy (x :: xs) with
    | false => rfl
    | true =>
      exfalso
      have hall : ∀ y ∈ xs, y = x := by
        simpa [allEqBy, List.all_eq_true] using hh
      have hax : a = x := by
        rcases List.mem_cons.mp ha with h1 | h1
        · exact h1
        · exact hall a h1
      have hbx : b = x := by
        rcases List.mem_cons.mp hb with h1 | h1
        · exact h1
        · exact hall b h1
      exact hne (hax.trans hbx.symm)

/-- C6: `from_rrule` on a ruleset whose RRULE members disagree on the
DTSTART raises the matching validation error synchronously (the conversion
returns the error instead of a schedule, so nothing is ever deferred to
`get_dates`): members carrying DTSTARTs in two distinct timezones produce
the "too many dtstart timezones" error, and members whose DTSTARTs agree on
timezone but denote two distinct instants produce the "too many dtstarts"
error. -/
theorem C6_conflicting_dtstart_rejection (rs : RRuleSetObj) :
    (∀ r1 ∈ rs.rrules, ∀ r2 ∈ rs.rrules, ∀ i1 z1 i2 z2,
        r1.dtstart = some (i1, some z1) → r2.dtstart = some (i2, some z2) →
        z1 ≠ z2 →
        RRuleSchedule.from_rruleset rs =
          .error "rruleset has too many dtstart timezones") ∧
    (∀ r1 ∈ rs.rrules, ∀ r2 ∈ rs.rrules, ∀ i1 o1 i2 o2,
        r1.dtstart = some (i1, o1) → r2.dtstart = some (i2, o2) →
        allEqBy (dtstartTzsOf rs) = true → i1 ≠ i2 →
        RRuleSchedule.from_rruleset rs =
          .error "rruleset has too many dtstarts") := by
  constructor
  · intro r1 h1 r2 h2 i1 z1 i2 z2 hd1 hd2 hne
    have hz1 : z1 ∈ dtstartTzsOf rs := by
      unfold dtstartTzsOf dtstartsOf
      exact List.mem_filterMap.mpr
        ⟨(i1, some z1), List.mem_filterMap.mpr ⟨r1, h1, hd1⟩, rfl⟩
    have hz2 : z2 ∈ dtstartTzsOf rs := by
      unfold dtstartTzsOf dtstartsOf
      exact List.mem_filterMap.mpr
        ⟨(i2, some z2), List.mem_filterMap.mpr ⟨r2, h2, hd2⟩, rfl⟩
    have hfalse := allEqBy_eq_false hz1 hz2 hne
    unfold RRuleSchedule.from_rruleset
    rw [hfalse]
    rfl
  · intro r1 h1 r2 h2 i1 o1 i2 o2 hd1 hd2 htz hne
    have hi1 : i1 ∈ dtstartInstantsOf rs := by
      unfold dtstartInstantsOf dtstartsOf
      exact List.mem_map.mpr ⟨(i1, o1), List.mem_filterMap.mpr ⟨r1, h1, hd1⟩, rfl⟩
    have hi2 : i2 ∈ dtstartInstantsOf rs := by
      unfold dtstartInstantsOf dtstartsOf
      exact List.mem_map.mpr ⟨(i2, o2), List.mem_filterMap.mpr ⟨r2, h2, hd2⟩, rfl⟩
    have hfalse := allEqBy_eq_false hi1 hi2 hne
    unfold RRuleSchedule.from_rruleset
    rw [htz, hfalse]
    rfl

/-- Hourly rule anchored 2018-01-11T04:00 America/New_York (09:00 UTC). -/
def nyRule : RRuleObj :=
  ⟨.hourly, 1, some 10, [], some (mins 2018 1 11 9 0, some "America/New_York")⟩

/-- Hourly rule anchored 2018-01-11T03:00 America/Chicago — the same
absolute instant as `nyRule`, in a different timezone. -/
def chicagoRule : RRuleObj :=
  ⟨.hourly, 1, some 10, [], some (mins 2018 1 11 9 0, some "America/Chicago")⟩

/-- Hourly rule anchored 2018-02-11T04:00 America/New_York — the same
timezone as `nyRule`, one month later. -/
def nyRuleLater : RRuleObj :=
  ⟨.hourly, 1, some 10, [], some (mins 2018 2 11 9 0, some "America/New_York")⟩

/-- Ruleset mixing two DTSTART timezones (New York and Chicago). -/
def mixedTzRuleset : RRuleSetObj := ⟨[nyRule, chicagoRule], [], [], []⟩

/-- Ruleset mixing two DTSTART instants in one timezone. -/
def mixedDtstartRuleset : RRuleSetObj := ⟨[nyRule, nyRuleLater], [], [], []⟩

/-- C6 witness: the rejection property instantiated at the New York/Chicago
ruleset and at the two-instant New York ruleset. -/
theorem C6_conflicting_dtstart_rejection_witness :
    RRuleSchedule.from_rruleset mixedTzRuleset =
      .error "rruleset has too many dtstart timezones" ∧
    RRuleSchedule.from_rruleset mixedDtstartRuleset =
      .error "rruleset has too many dtstarts" :=
  ⟨(C6_conflicting_dtstart_rejection mixedTzRuleset).1 nyRule (by decide)
      chicagoRule (by decide) _ _ _ _ rfl rfl (by decide),
    (C6_conflicting_dtstart_rejection mixedDtstartRuleset).2 nyRule (by decide)
      nyRuleLater (by decide) _ _ _ _ rfl rfl (by decide) (by decide)⟩

/-- C7: any rrule string strictly longer than `MAX_RRULE_LENGTH` is
rejected with a validation error at construction. -/
theorem C7_length_guard (s : String) (tz : Option String)
    (h : MAX_RRULE_LENGTH < s.length) :
    RRuleSchedule.create s tz =
      .error "Invalid RRule string: exceeds maximum length" := by
  unfold RRuleSchedule.create
  rw [if_pos h]

/-- Join a list of strings with a separator. -/
def joinWith (sep : String) : List String → String
  | [] => ""
  | [x] => x
  | x :: y :: rest => x ++ sep ++ joinWith sep (y :: rest)

/-- Basic-format date of a day number (`YYYYMMDD`). -/
def fmtDayBasic (day : Int) : String :=
  let ymd := civilFromDays day
  padNat 4 ymd.1.toNat ++ padNat 2 ymd.2.1.toNat ++ padNat 2 ymd.2.2.toNat

/-- One RDATE entry of the length-cap test: the `j`-th daily date after
2000-01-01, in basic format with an explicit UTC marker. -/
def rdatePiece (j : Nat) : String :=
  fmtDayBasic (daysFromCivil 2000 1 1 + (j : Int)) ++ "T000000Z"

/-- The three-year RDATE enumeration of the length-cap test: 1095 daily
dates from 2000-01-01, serialized as a comma-joined RDATE line. -/
def rdateString : String :=
  "RDATE:" ++ joinWith "," ((List.range 1095).map rdatePiece)

/-- Zero-padding never shortens a numeral below the requested width. -/
theorem le_length_padNat (w n : Nat) : w ≤ (padNat w n).length := by
  unfold padNat
  rw [String.length_append]
  have h : (String.mk (List.replicate (w - (toString n).length) '0')).length =
      w - (toString n).length := by
    rw [String.length_mk]
    exact List.length_replicate _ _
  rw [h]
  omega

/-- A join of strings each at least `m` long is at least `m` times as long
as the list. -/
theorem le_length_joinWith (sep : String) (m : Nat) :
    ∀ l : List String, (∀ x ∈ l, m ≤ x.length) →
      l.length * m ≤ (joinWith sep l).length := by
  intro l
  induction l with
  | nil => intro _; simp [joinWith]
  | cons x rest ih =>
    intro h
    cases rest with
    | nil =>
      have := h x (List.mem_cons_self x [])
      simpa [joinWith] using this
    | cons y t =>
      rw [joinWith, String.length_append, String.length_append]
      have h1 := h x (List.mem_cons_self x (y :: t))
      have h2 := ih (fun z hz => h z (List.mem_cons_of_mem x hz))
      have hlen : (x :: y :: t).length * m = (y :: t).length * m + m := by
        simp [Nat.succ_mul]
      rw [hlen]
      have h3 : (y :: t).length * m ≤ (joinWith sep (y :: t)).length := h2
      omega

/-- Every RDATE entry is at least 16 characters long. -/
theorem le_length_rdatePiece (j : Nat) : 16 ≤ (rdatePiece j).length := by
  unfold rdatePiece fmtDayBasic
  rw [String.length_append, String.length_append, String.length_append]
  have h1 := le_length_padNat 4
    (civilFromDays (daysFromCivil 2000 1 1 + (j : Int))).1.toNat
  have h2 := le_length_padNat 2
    (civilFromDays (daysFromCivil 2000 1 1 + (j : Int))).2.1.toNat
  have h3 := le_length_padNat 2
    (civilFromDays (daysFromCivil 2000 1 1 + (j : Int))).2.2.toNat
  have h4 : ("T000000Z" : String).length = 8 := rfl
  omega

/-- The 1095-entry RDATE string is longer than the length cap. -/
theorem rdateString_long : MAX_RRULE_LENGTH < rdateString.length := by
  unfold rdateString
  rw [String.length_append]
  have hpieces : ∀ x ∈ (List.range 1095).map rdatePiece, 16 ≤ x.length := by
    intro x hx
    rcases List.mem_map.mp hx with ⟨j, _, rfl⟩
    exact le_length_rdatePiece j
  have hlen : ((List.range 1095).map rdatePiece).length = 1095 := by simp
  have hjoin := le_length_joinWith "," 16 ((List.range 1095).map rdatePiece)
    hpieces
  rw [hlen] at hjoin
  have : MAX_RRULE_LENGTH = 6500 := rfl
  omega

/-- C7 witness: the 1095-date RDATE string exceeds the cap and is rejected
at construction. -/
theorem C7_length_guard_witness :
    MAX_RRULE_LENGTH < rdateString.length ∧
    RRuleSchedule.create rdateString none =
      .error "Invalid RRule string: exceeds maximum length" :=
  ⟨rdateString_long, C7_length_guard rdateString none rdateString_long⟩

/-- C8: an `IntervalSchedule` built without an explicit timezone from an
anchor carrying only a bare UTC offset resolves its timezone field to the
string "UTC" (for every offset, anchor instant and positive interval) while
keeping the anchor itself. -/
theorem C8_offset_anchor_timezone_utc (t off i now : Int) (hi : 0 < i) :
    IntervalSchedule.create i (some ⟨t, .offset off⟩) none now =
      .ok ⟨i, ⟨t, .offset off⟩, "UTC"⟩ := by
  unfold IntervalSchedule.create
  rw [if_neg (by omega)]
  rfl

/-- C8 witness: the inference instantiated at the -04:00 offset anchor of
the test. -/
theorem C8_offset_anchor_timezone_utc_witness :
    (0 : Int) < 1440 ∧
    IntervalSchedule.create 1440 (some ⟨mins 2020 1 1 4 0, .offset (-240)⟩)
        none 0 =
      .ok ⟨1440, ⟨mins 2020 1 1 4 0, .offset (-240)⟩, "UTC"⟩ :=
  ⟨by decide,
    C8_offset_anchor_timezone_utc (mins 2020 1 1 4 0) (-240) 1440 0 (by decide)⟩

/-- C10: constructing an `IntervalSchedule` with an explicit timezone
different from the anchor's zone stores that timezone while leaving the
anchor — instant and tzinfo alike — unmodified. -/
theorem C10_explicit_timezone_preserves_anchor (t i now : Int) (hi : 0 < i) :
    IntervalSchedule.create i (some ⟨t, .named "America/New_York"⟩)
        (some "America/Los_Angeles") now =
      .ok ⟨i, ⟨t, .named "America/New_York"⟩, "America/Los_Angeles"⟩ := by
  unfold IntervalSchedule.create
  rw [if_neg (by omega)]
  rfl

/-- In the UTC zone both interval-engine regimes emit the cursor itself and
advance by one interval. -/
theorem intervalStep_utc (i : Int) (m : Bool) (st : Int) :
    intervalStep ⟨0, false⟩ i m st = some (st, st + i) := by
  cases m <;> simp [intervalStep, utcOfCivil]

/-- Raw interval-engine output of a UTC-timezone schedule, in either
regime: the facade loop over the arithmetic stream starting at the
phase-aligned point at or after `s`. -/
theorem rawDates_interval_utc (i a s : Int) (tag : TzTag) (k : Nat) :
    rawDates (.interval ⟨i, ⟨a, tag⟩, "UTC"⟩) k s none =
      (if 1440 ≤ i then
        driveAux (intervalStep ⟨0, false⟩ i true) s none k MAX_ITERATIONS
          (s + (a - s) % i) []
      else
        driveAux (intervalStep ⟨0, false⟩ i false) s none k MAX_ITERATIONS
          (s + (a - s) % i) []) := by
  rw [rawDates]
  have hz : zoneOf "UTC" = ⟨0, false⟩ := by decide
  simp [hz, localOfUTC, zoneOffsetAt]
  rfl

/-- For a stream that emits its cursor and advances by `i > 0`, the facade
loop starting at a phase-aligned cursor `c0 ≥ s` returns `c0` among dates
that are all phase-aligned and at least `c0`. -/
theorem interval_drive_props (step : Int → Option (Int × Int)) (s a i c0 : Int)
    (k : Nat) (hi : 0 < i) (hk : 1 ≤ k)
    (hstep : ∀ st, step st = some (st, st + i)) (hc0s : s ≤ c0)
    (hc0m : (c0 - a) % i = 0) :
    c0 ∈ driveAux step s none k MAX_ITERATIONS c0 [] ∧
    ∀ x ∈ driveAux step s none k MAX_ITERATIONS c0 [],
      c0 ≤ x ∧ (x - a) % i = 0 := by
  rw [show MAX_ITERATIONS = 999 + 1 from rfl]
  rw [driveAux_first step s k 999 c0 (c0 + i) c0 (hstep c0) hc0s
    (Nat.lt_of_lt_of_le Nat.zero_lt_one hk)]
  have hinv : c0 ≤ c0 + i ∧ (c0 + i - a) % i = 0 := by
    constructor
    · omega
    · rw [show c0 + i - a = c0 - a + i by ring, Int.add_emod, hc0m,
        Int.emod_self]
      simp
  constructor
  · exact driveAux_subset step s none k 999 (c0 + i) [c0]
      (List.mem_singleton.mpr rfl)
  · intro x hx
    refine driveAux_inv step s none k
      (fun d => c0 ≤ d ∧ (d - a) % i = 0)
      (fun st => c0 ≤ st ∧ (st - a) % i = 0) ?_ 999 (c0 + i) [c0]
      hinv ?_ x hx
    · intro st d st2 hst heq
      rw [hstep st] at heq
      have hd : st = d := congrArg Prod.fst (Option.some.inj heq)
      have hs2 : st + i = st2 := congrArg Prod.snd (Option.some.inj heq)
      refine ⟨hd ▸ hst, ?_⟩
      rw [← hs2]
      constructor
      · omega
      · rw [show st + i - a = st - a + i by ring, Int.add_emod, hst.2,
          Int.emod_self]
        simp
    · intro y hy
      rw [List.mem_singleton.mp hy]
      exact ⟨le_refl c0, hc0m⟩

/-- C9: for a UTC-timezone interval schedule whose anchor lies strictly
after `start`, `get_dates` still succeeds: the anchor's phase is projected
backwards in whole intervals, the first returned instant is the
phase-aligned instant at or after `start` — `start + ((anchor - start) mod
interval)` — and every returned instant is at or after `start` and
phase-aligned with the anchor. -/
theorem C9_future_anchor_phase (i a s now : Int) (k : Nat) (tag : TzTag)
    (hi : 0 < i) (hk : 1 ≤ k) (ha : s < a) :
    (Schedule.get_dates (.interval ⟨i, ⟨a, tag⟩, "UTC"⟩) (some k) (some s)
        none now).head? = some (s + (a - s) % i) ∧
    ∀ d ∈ Schedule.get_dates (.interval ⟨i, ⟨a, tag⟩, "UTC"⟩) (some k)
        (some s) none now,
      s ≤ d ∧ (d - a) % i = 0 := by
  have hperm := get_dates_perm_raw (.interval ⟨i, ⟨a, tag⟩, "UTC"⟩) (some k)
    (some s) none now
  simp only [Option.getD_some] at hperm
  rw [rawDates_interval_utc] at hperm
  have hsort := get_dates_sorted_le (.interval ⟨i, ⟨a, tag⟩, "UTC"⟩) (some k)
    (some s) none now
  have hge : s ≤ s + (a - s) % i := by
    have := Int.emod_nonneg (a - s) (ne_of_gt hi)
    omega
  have hmod : (s + (a - s) % i - a) % i = 0 := by
    rw [show s + (a - s) % i - a = (a - s) % i - (a - s) by ring]
    rw [Int.emod_def (a - s) i]
    rw [show a - s - i * ((a - s) / i) - (a - s) = i * (-((a - s) / i)) by
      ring]
    exact Int.mul_emod_right i _
  have hex : ∃ step : Int → Option (Int × Int),
      (∀ st, step st = some (st, st + i)) ∧
      List.Perm (Schedule.get_dates (.interval ⟨i, ⟨a, tag⟩, "UTC"⟩) (some k)
        (some s) none now)
        (driveAux step s none k MAX_ITERATIONS (s + (a - s) % i) []) := by
    by_cases h14 : 1440 ≤ i
    · exact ⟨_, intervalStep_utc i true, by rwa [if_pos h14] at hperm⟩
    · exact ⟨_, intervalStep_utc i false, by rwa [if_neg h14] at hperm⟩
  obtain ⟨step, hstep, hperm2⟩ := hex
  obtain ⟨hmem0, hall⟩ := interval_drive_props step s a i (s + (a - s) % i)
    k hi hk hstep hge hmod
  constructor
  · refine head_eq_of_sorted_min hsort (hperm2.mem_iff.mpr hmem0) ?_
    intro x hx
    exact (hall x (hperm2.mem_iff.mp hx)).1
  · intro d hd
    have hp := hall d (hperm2.mem_iff.mp hd)
    exact ⟨le_trans hge hp.1, hp.2⟩

/-- C9 witness: the 17-hour schedule anchored 2030-02-02T05:24Z, started
2021-07-01T00:00Z, whose phase-aligned first date is 2021-07-01T07:24Z. -/
theorem C9_future_anchor_phase_witness :
    (0 : Int) < 1020 ∧ 1 ≤ 5 ∧ mins 2021 7 1 0 0 < mins 2030 2 2 5 24 ∧
    ((Schedule.get_dates
        (.interval ⟨1020, ⟨mins 2030 2 2 5 24, .named "UTC"⟩, "UTC"⟩)
        (some 5) (some (mins 2021 7 1 0 0)) none 0).head? =
          some (mins 2021 7 1 0 0 +
            (mins 2030 2 2 5 24 - mins 2021 7 1 0 0) % 1020) ∧
      ∀ d ∈ Schedule.get_dates
          (.interval ⟨1020, ⟨mins 2030 2 2 5 24, .named "UTC"⟩, "UTC"⟩)
          (some 5) (some (mins 2021 7 1 0 0)) none 0,
        mins 2021 7 1 0 0 ≤ d ∧
          (d - mins 2030 2 2 5 24) % 1020 = 0) ∧
    mins 2021 7 1 0 0 + (mins 2030 2 2 5 24 - mins 2021 7 1 0 0) % 1020 =
      mins 2021 7 1 7 24 :=
  ⟨by decide, by decide, by decide,
    C9_future_anchor_phase 1020 (mins 2030 2 2 5 24) (mins 2021 7 1 0 0) 0 5
      (.named "UTC") (by decide) (by decide) (by decide),
    by decide⟩

/-- C10 witness: the frame property instantiated at a daily schedule with a
New York anchor and a Los Angeles timezone. -/
theorem C10_explicit_timezone_preserves_anchor_witness :
    (0 : Int) < 1440 ∧
    IntervalSchedule.create 1440
        (some ⟨mins 2021 6 1 12 0, .named "America/New_York"⟩)
        (some "America/Los_Angeles") 0 =
      .ok ⟨1440, ⟨mins 2021 6 1 12 0, .named "America/New_York"⟩,
        "America/Los_Angeles"⟩ :=
  ⟨by decide,
    C10_explicit_timezone_preserves_anchor (mins 2021 6 1 12 0) 1440 0 (by decide)⟩
